import Mathlib

/-!
# Verification development for the Discord + Telegram relay core

Shallow embedding of the message-processing and session-continuity core of
the relay (`src/relay.ts` and the memory module), together with proofs about
its directive parser/dispatcher, session persistence, lock acquisition,
agent-invoker error handling, and turn interleaving.

Strings are modelled as `List Char`.  JavaScript regular-expression
behaviour (case-insensitive matching, non-greedy `.+?`, greedy `\s*` with
backtracking, `matchAll` left-to-right non-overlapping scanning) is embedded
directly; the `\s` class and `String.prototype.trim` are modelled over the
ASCII whitespace characters, which are the only whitespace characters
appearing in the inputs considered here.
-/

set_option maxRecDepth 8192

namespace Relay

/-- Whitespace, modelling the JavaScript `\s` class and `trim`, over ASCII. -/
def isWs (c : Char) : Bool :=
  c = ' ' || c = '\t' || c = '\n' || c = '\r' || c = '\x0b' || c = '\x0c'

/-- Characters matched by the JavaScript regex `.` (no `s` flag): anything but
a line terminator. -/
def dotChar (c : Char) : Bool :=
  !(c = '\n' || c = '\r' || c = '\u2028' || c = '\u2029')

/-- ASCII lower-casing, modelling the case folding performed by the regex
`i` flag on the ASCII-only tags involved. -/
def lowerChar (c : Char) : Char :=
  if 'A' ≤ c && c ≤ 'Z' then Char.ofNat (c.toNat + 32) else c

/-- Case-insensitive match of the literal `tag` at the head of `cs`;
returns the remainder on success. -/
def ciPrefix : List Char → List Char → Option (List Char)
  | [], cs => some cs
  | _ :: _, [] => none
  | t :: ts, c :: cs => if lowerChar t = lowerChar c then ciPrefix ts cs else none

/-- Length of the maximal whitespace run at the head of `cs`
(the text the greedy `\s*` consumes before backtracking). -/
def wsCount (cs : List Char) : Nat :=
  (cs.takeWhile isWs).length

/-- The non-greedy `(.+?)\]` step: the smallest `k ≥ 1` such that the first
`k` characters of `cs` all match `.` and the character at index `k` is `]`.
Mirrors the expansion of a lazy `.+?` that stops at the first viable `]`. -/
def dotScan : List Char → Option Nat
  | [] => none
  | c :: cs =>
    if dotChar c then
      match cs with
      | ']' :: _ => some 1
      | _ => (dotScan cs).map (· + 1)
    else none

/-- Backtracking of a greedy `\s*` followed by `(.+?)\]`: try the whitespace
consumption `w` from its maximum down to `0`, and for each `w` the minimal
`(.+?)` expansion.  Returns `(w, k)` for the first success, mirroring the
regex engine's preference order. -/
def wsDotTry (cs : List Char) : Nat → Option (Nat × Nat)
  | 0 => (dotScan cs).map (fun k => (0, k))
  | w + 1 =>
    match dotScan (cs.drop (w + 1)) with
    | some k => some (w + 1, k)
    | none => wsDotTry cs w

/-- `\s*(.+?)\]` at the head of `cs`. -/
def wsDot (cs : List Char) : Option (Nat × Nat) :=
  wsDotTry cs (wsCount cs)

/-- Attempt to match `\[TAG\s*(.+?)\]` (case-insensitive) at the head of
`cs`, where `tag` is the literal `[TAG` part including the colon (for example
`"[REMEMBER:"`).  Returns the total match length and the capture. -/
def tryTag1 (tag : List Char) (cs : List Char) : Option (Nat × List Char) :=
  match ciPrefix tag cs with
  | none => none
  | some rest =>
    match wsDot rest with
    | none => none
    | some (w, k) => some (tag.length + w + k + 1, (rest.drop w).take k)

/-- The optional deadline group `\s*\|\s*DEADLINE:\s*(.+?)\]` of the GOAL
regex, attempted at the position following the current `(.+?)` expansion.
`\s*\|` and `\s*DEADLINE:` are deterministic (a whitespace character is never
`|` nor `D`), so only the final `\s*(.+?)\]` needs backtracking.
Returns the deadline capture and the number of characters consumed. -/
def tryDeadlinePart (cs : List Char) : Option (List Char × Nat) :=
  let w1 := wsCount cs
  match cs.drop w1 with
  | '|' :: cs2 =>
    let w2 := wsCount cs2
    match ciPrefix ("DEADLINE:".toList) (cs2.drop w2) with
    | none => none
    | some cs4 =>
      match wsDot cs4 with
      | none => none
      | some (w3, k) =>
        some ((cs4.drop w3).take k, w1 + 1 + w2 + 9 + w3 + k + 1)
  | _ => none

/-- The body of the GOAL regex after the opening `\s*`: expand `(.+?)` one
character at a time; at each expansion first try the (greedy) optional
deadline group, then the bare `\]`.  Returns the first-group capture, the
optional deadline capture, and the characters consumed from the content
start through the closing `]`. -/
def goalScanAux : List Char → List Char → Option (List Char × Option (List Char) × Nat)
  | _, [] => none
  | acc, c :: rest =>
    if dotChar c then
      let content := acc ++ [c]
      match tryDeadlinePart rest with
      | some (dl, n) => some (content, some dl, content.length + n)
      | none =>
        match rest with
        | ']' :: _ => some (content, none, content.length + 1)
        | _ => goalScanAux content rest
    else none

/-- Backtracking of the GOAL regex's leading greedy `\s*`, from maximal
whitespace consumption down to `0`. -/
def wsGoalTry (cs : List Char) : Nat → Option (Nat × (List Char × Option (List Char) × Nat))
  | 0 => (goalScanAux [] cs).map (fun r => (0, r))
  | w + 1 =>
    match goalScanAux [] (cs.drop (w + 1)) with
    | some r => some (w + 1, r)
    | none => wsGoalTry cs w

/-- Attempt to match `\[GOAL:\s*(.+?)(?:\s*\|\s*DEADLINE:\s*(.+?))?\]`
(case-insensitive) at the head of `cs`.  Returns the total match length,
the goal capture, and the optional deadline capture. -/
def tryGoal (cs : List Char) : Option (Nat × List Char × Option (List Char)) :=
  match ciPrefix ("[GOAL:".toList) cs with
  | none => none
  | some rest =>
    match wsGoalTry rest (wsCount rest) with
    | none => none
    | some (w, (content, dl, consumed)) => some (6 + w + consumed, content, dl)

/-- One match of a single-capture directive regex:
the full matched text and the capture. -/
structure TMatch where
  m0 : List Char
  g1 : List Char
deriving DecidableEq, Repr

/-- One match of the GOAL regex: full matched text, goal capture and
optional deadline capture. -/
structure GMatch where
  m0 : List Char
  g1 : List Char
  g2 : Option (List Char)
deriving DecidableEq, Repr

/-- `matchAll` for a single-capture directive regex: scan left to right,
emitting non-overlapping matches and resuming after each match.  The fuel
argument only bounds the number of scan steps; every step consumes at least
one character, so `scanTag1` supplies fuel that is never exhausted before
the text ends. -/
def scanTag1Aux (tag : List Char) : Nat → List Char → List TMatch
  | 0, _ => []
  | _ + 1, [] => []
  | fuel + 1, c :: rest =>
    match tryTag1 tag (c :: rest) with
    | some (len, g) =>
      ⟨(c :: rest).take len, g⟩ :: scanTag1Aux tag fuel (rest.drop (len - 1))
    | none => scanTag1Aux tag fuel rest

/-- `matchAll` for a single-capture directive regex over the whole text. -/
def scanTag1 (tag : List Char) (cs : List Char) : List TMatch :=
  scanTag1Aux tag cs.length cs

/-- `matchAll` for the GOAL regex (fueled scan, as for `scanTag1Aux`). -/
def scanGoalAux : Nat → List Char → List GMatch
  | 0, _ => []
  | _ + 1, [] => []
  | fuel + 1, c :: rest =>
    match tryGoal (c :: rest) with
    | some (len, g1, g2) =>
      ⟨(c :: rest).take len, g1, g2⟩ :: scanGoalAux fuel (rest.drop (len - 1))
    | none => scanGoalAux fuel rest

/-- `matchAll` for the GOAL regex over the whole text. -/
def scanGoal (cs : List Char) : List GMatch :=
  scanGoalAux cs.length cs

/-- Matches of `/\[REMEMBER:\s*(.+?)\]/gi` over the whole text. -/
def scanRemember (t : List Char) : List TMatch :=
  scanTag1 ("[REMEMBER:".toList) t

/-- Matches of `/\[DONE:\s*(.+?)\]/gi` over the whole text. -/
def scanDone (t : List Char) : List TMatch :=
  scanTag1 ("[DONE:".toList) t

/-- `String.prototype.replace` with a (nonempty) string pattern and empty
replacement: remove the first occurrence of `pat`. -/
def removeFirst (pat : List Char) : List Char → List Char
  | [] => []
  | c :: rest =>
    if pat.isPrefixOf (c :: rest) then rest.drop (pat.length - 1)
    else c :: removeFirst pat rest

/-- `clean.replace(pat, "")` for a string pattern: identity when `pat` is
empty (as in JavaScript, where replacing `""` by `""` changes nothing),
otherwise removal of the first occurrence. -/
def replaceFirst (pat cs : List Char) : List Char :=
  match pat with
  | [] => cs
  | _ :: _ => removeFirst pat cs

/-- Whether `pat` occurs as a contiguous substring. -/
def containsSub (pat : List Char) : List Char → Bool
  | [] => pat.isEmpty
  | c :: rest => pat.isPrefixOf (c :: rest) || containsSub pat rest

/-- Left trim (JavaScript `trimStart`), over ASCII whitespace. -/
def trimLeft : List Char → List Char
  | [] => []
  | c :: rest => if isWs c then trimLeft rest else c :: rest

/-- Right trim by reversal. -/
def trimRight (cs : List Char) : List Char :=
  (trimLeft cs.reverse).reverse

/-- `String.prototype.trim`. -/
def trimList (cs : List Char) : List Char :=
  trimRight (trimLeft cs)

/-- A call into the Memory Gateway (Diego's MCP server), as issued by the
memory module: `ledger_item_create`, `ledger_query` with a free-text filter,
`ledger_query` with a status filter, or `ledger_item_update`. -/
inductive Call where
  | create (title status priority nature subject category : List Char)
  | queryText (q : List Char) (limit : Nat)
  | queryStatus (status : List Char) (limit : Nat)
  | update (id status : List Char)
deriving DecidableEq, Repr

/-- A ledger item as read back from a `ledger_query` response.  `id = none`
models a response item whose `id` field is missing. -/
structure Item where
  id : Option (List Char)
  title : List Char
deriving DecidableEq, Repr

/-- The remote gateway's answer to a free-text `ledger_query`: `none` models
a malformed / unparseable response (the `JSON.parse` in `markGoalComplete`
throwing or the `data.data?.items` chain coming up empty-handed), `some l`
a well-formed response with item list `l`. -/
def Oracle : Type :=
  List Char → Option (List Item)

/-- `saveMemory(content, type, deadline)` from the memory module: the
`ledger_item_create` call it issues.  `title` is the first 100 characters of
the content, `nature` is `"know"` for facts and `"action"` otherwise, and
`subject` carries the deadline when one is present and nonempty (an empty
deadline string is falsy in JavaScript, so it yields an empty subject). -/
def saveMemory (content : List Char) (type : List Char)
    (deadline : Option (List Char)) : Call :=
  Call.create (content.take 100) ("inbox".toList) ("medium".toList)
    (if type = "fact".toList then "know".toList else "action".toList)
    (match deadline with
     | some d => if d = [] then [] else ("DEADLINE: ".toList) ++ d
     | none => [])
    ("memory".toList)

/-- `markGoalComplete(searchText)`: the gateway calls it issues.  It always
issues `ledger_query(query = searchText, limit = 5)`; then, only when the
response parses, has a nonempty item list, and the first item has a truthy
`id`, it issues `ledger_item_update(id, "done")`. -/
def markGoalComplete (o : Oracle) (searchText : List Char) : List Call :=
  Call.queryText searchText 5 ::
    match o searchText with
    | some (it :: _) =>
      (match it.id with
       | some i => if i = [] then [] else [Call.update i ("done".toList)]
       | none => [])
    | _ => []

/-- Sequentially remove (the first occurrence of) each pattern. -/
def stripAll (pats : List (List Char)) (t : List Char) : List Char :=
  pats.foldl (fun acc p => replaceFirst p acc) t

/-- The full matched texts of all three directive regexes over the original
text, in the order `processMemoryIntents` strips them: all REMEMBER matches,
then all GOAL matches, then all DONE matches. -/
def matchedPats (t : List Char) : List (List Char) :=
  (scanRemember t).map TMatch.m0 ++ (scanGoal t).map GMatch.m0
    ++ (scanDone t).map TMatch.m0

/-- The create calls issued for the REMEMBER matches. -/
def factCalls (t : List Char) : List Call :=
  (scanRemember t).map (fun m => saveMemory (trimList m.g1) ("fact".toList) none)

/-- The create calls issued for the GOAL matches. -/
def goalCalls (t : List Char) : List Call :=
  (scanGoal t).map (fun m => saveMemory (trimList m.g1) ("goal".toList) (m.g2.map trimList))

/-- The gateway calls issued for the DONE matches. -/
def doneCalls (o : Oracle) (t : List Char) : List Call :=
  (scanDone t).foldr (fun m acc => markGoalComplete o (trimList m.g1) ++ acc) []

/-- Result of `processMemoryIntents`: the cleaned reply text and the gateway
calls issued while processing it. -/
structure PmiResult where
  text : List Char
  calls : List Call
deriving DecidableEq, Repr

/-- `processMemoryIntents(response)` from the memory module: scan the
original response with the three directive regexes; for each match issue the
corresponding gateway call(s) (create for REMEMBER with type `"fact"`,
create for GOAL with type `"goal"` and the optional trimmed deadline, and
`markGoalComplete` for DONE), each capture being trimmed first; remove each
match's full text from the working copy (first occurrence, in scan order:
REMEMBER, then GOAL, then DONE); finally trim the result. -/
def processMemoryIntents (o : Oracle) (response : List Char) : PmiResult :=
  { text := trimList (stripAll (matchedPats response) response)
    calls := factCalls response ++ goalCalls response ++ doneCalls o response }

/-- Whether a gateway call is a `ledger_item_create`. -/
def isCreate : Call → Bool
  | .create _ _ _ _ _ _ => true
  | _ => false

/-- Whether a gateway call is a free-text `ledger_query`. -/
def isQueryText : Call → Bool
  | .queryText _ _ => true
  | _ => false

/-- Whether a gateway call is a `ledger_item_update`. -/
def isUpdate : Call → Bool
  | .update _ _ => true
  | _ => false

/-- The status-filtered queries issued by `getMemoryContext()`: pending goals
(`status = "todo"`, limit 10) then inbox items (`status = "inbox"`, limit
10). -/
def getMemoryContextCalls : List Call :=
  [Call.queryStatus ("todo".toList) 10, Call.queryStatus ("inbox".toList) 10]

/-- The `title` argument of a create call (empty for other calls). -/
def Call.titleOf : Call → List Char
  | .create ti _ _ _ _ _ => ti
  | _ => []

/-- The `status` argument of a create call (empty for other calls). -/
def Call.statusOf : Call → List Char
  | .create _ s _ _ _ _ => s
  | _ => []

/-- The `priority` argument of a create call (empty for other calls). -/
def Call.priorityOf : Call → List Char
  | .create _ _ p _ _ _ => p
  | _ => []

/-- The persisted session state of `relay.ts`:
`{ sessionId: string | null, lastActivity: string }`. -/
structure SessionState where
  sessionId : Option (List Char)
  lastActivity : List Char
deriving DecidableEq, Repr

/-- A JSON string literal (no escaping; the strings stored by the relay —
the session id recovered by `/[a-f0-9-]+/` and an ISO timestamp — contain
no character that needs escaping, and the round-trip theorem assumes
this). -/
def quoteStr (s : List Char) : List Char :=
  '"' :: s ++ ['"']

/-- `JSON.stringify(state, null, 2)` for a `SessionState`: the exact file
content `saveSession` writes. -/
def printSession (st : SessionState) : List Char :=
  ("\x7b\n  \"sessionId\": ".toList)
    ++ (match st.sessionId with
        | none => "null".toList
        | some s => quoteStr s)
    ++ (",\n  \"lastActivity\": ".toList)
    ++ quoteStr st.lastActivity
    ++ ("\n\x7d".toList)

/-- Match the literal `lit` at the head of `cs`; return the remainder. -/
def litPrefix : List Char → List Char → Option (List Char)
  | [], cs => some cs
  | _ :: _, [] => none
  | l :: ls, c :: cs => if l = c then litPrefix ls cs else none

/-- Parse a JSON string literal (no escape sequences). -/
def parseQuoted (cs : List Char) : Option (List Char × List Char) :=
  match cs with
  | '"' :: rest =>
    let s := rest.takeWhile (fun c => c != '"')
    (match rest.drop s.length with
     | '"' :: r => some (s, r)
     | _ => none)
  | _ => none

/-- Parse the `sessionId` value: `null` or a string literal. -/
def parseSidValue (cs : List Char) : Option (Option (List Char) × List Char) :=
  match litPrefix ("null".toList) cs with
  | some r => some (none, r)
  | none => (parseQuoted cs).map (fun p => (some p.1, p.2))

/-- Parse the session file format written by `saveSession`
(`JSON.parse` restricted to the shape the relay itself persists; any other
content — in particular anything `JSON.parse` would throw on — yields
`none`). -/
def parseSession (cs : List Char) : Option SessionState :=
  match litPrefix ("\x7b\n  \"sessionId\": ".toList) cs with
  | none => none
  | some r1 =>
    match parseSidValue r1 with
    | none => none
    | some (sid, r2) =>
      match litPrefix (",\n  \"lastActivity\": ".toList) r2 with
      | none => none
      | some r3 =>
        match parseQuoted r3 with
        | none => none
        | some (la, r4) =>
          match litPrefix ("\n\x7d".toList) r4 with
          | some [] => some ⟨sid, la⟩
          | _ => none

/-- `loadSession()`: the file is `none` when missing or unreadable (the
`readFile` rejection caught by the surrounding `try`); otherwise its
content is parsed, a parse failure (the `JSON.parse` throw caught by the
same `try`) yielding the fresh state.  `now` is the current
`new Date().toISOString()`. -/
def loadSession (file : Option (List Char)) (now : List Char) : SessionState :=
  match file with
  | none => ⟨none, now⟩
  | some content =>
    match parseSession content with
    | some st => st
    | none => ⟨none, now⟩

/-- `saveSession(state)`: the file content written
(`JSON.stringify(state, null, 2)`). -/
def saveSession (st : SessionState) : List Char :=
  printSession st

/-- `saveSession` issues one plain truncate-then-write of the new content
(no write-then-rename).  Under the standard crash model for such a write,
the content persisted after a crash is either the old content (crash before
the write took effect) or some prefix of the new content (crash after
truncation, mid-write).  `sessionCrashOutcomes old st r` states that `r` is
a possible on-disk content after `saveSession st` interrupted at an
arbitrary point, starting from old content `old`. -/
def sessionCrashOutcomes (old : List Char) (st : SessionState) (r : List Char) : Prop :=
  r = old ∨ ∃ n, n ≤ (saveSession st).length ∧ r = (saveSession st).take n

/-- What the claimed atomic (write-then-rename) contract would allow after
a crash: the complete old content or the complete new content only. -/
def atomicOutcomes (old new_ : List Char) (r : List Char) : Prop :=
  r = old ∨ r = new_

/-- `parseInt` on the lock-file content: optional leading whitespace, an
optional sign, then a maximal run of decimal digits; `none` models `NaN`
(no digits).  (The hexadecimal `0x` form never arises: the lock file is
written as `process.pid.toString()`.) -/
def digitsVal (ds : List Char) : Nat :=
  ds.foldl (fun acc c => acc * 10 + (c.toNat - '0'.toNat)) 0

/-- Decimal digit test. -/
def isDigit (c : Char) : Bool :=
  '0' ≤ c && c ≤ '9'

/-- `parseInt(content)` as used by `acquireLock`. -/
def parseIntPrefix (cs : List Char) : Option Int :=
  let cs1 := cs.dropWhile isWs
  let signAndRest : Int × List Char :=
    match cs1 with
    | '-' :: r => (-1, r)
    | '+' :: r => (1, r)
    | _ => (1, cs1)
  let ds := signAndRest.2.takeWhile isDigit
  if ds = [] then none else some (signAndRest.1 * (digitsVal ds : Int))

/-- Result of `acquireLock()`: whether acquisition succeeded and the lock
file content afterwards. -/
structure LockResult where
  ok : Bool
  lockFile : Option (List Char)
deriving DecidableEq, Repr

/-- `acquireLock()` from `relay.ts`.  `lockFile` is the existing lock file
content (`none` when the file is absent or unreadable — the `.catch(() =>
null)`); `alive pid` models `process.kill(pid, 0)` succeeding; `selfPid` is
`process.pid`.  An existing nonempty lock is parsed; if the recorded
process is alive the call fails and leaves the lock alone; otherwise (dead
owner, or unparseable content making `process.kill` throw) the lock is
reclaimed by writing the caller's own pid.  An empty lock file content is
falsy in JavaScript and is treated like an absent lock. -/
def acquireLock (lockFile : Option (List Char)) (alive : Int → Bool)
    (selfPid : Nat) : LockResult :=
  match lockFile with
  | some content =>
    if content ≠ [] then
      match parseIntPrefix content with
      | some pid =>
        if alive pid then ⟨false, some content⟩
        else ⟨true, some (toString selfPid).toList⟩
      | none => ⟨true, some (toString selfPid).toList⟩
    else ⟨true, some (toString selfPid).toList⟩
  | none => ⟨true, some (toString selfPid).toList⟩

/-- Session-id characters accepted by the extraction regex
`/Session ID: ([a-f0-9-]+)/i` (the `i` flag also admits `A`–`F`). -/
def isSidChar (c : Char) : Bool :=
  ('a' ≤ c && c ≤ 'f') || ('A' ≤ c && c ≤ 'F') || ('0' ≤ c && c ≤ '9') || c = '-'

/-- First match of `/Session ID: ([a-f0-9-]+)/i` over the output: scan left
to right for the case-insensitive literal `Session ID: ` followed by at
least one session-id character; the capture is the maximal (greedy) run. -/
def findSessionId : List Char → Option (List Char)
  | [] => none
  | c :: rest =>
    match ciPrefix ("Session ID: ".toList) (c :: rest) with
    | some after =>
      let run := after.takeWhile isSidChar
      if run = [] then findSessionId rest else some run
    | none => findSessionId rest

/-- Outcome of `Bun.spawn` and the subsequent stream reads in `callClaude`:
either the subprocess ran to completion with the given streams and exit
code, or spawning (or reading) failed — the rejection caught by the
surrounding `try`. -/
inductive SpawnOutcome where
  | ok (stdout stderr : List Char) (exitCode : Int)
  | spawnError
deriving DecidableEq, Repr

/-- `callClaude` from `relay.ts`, as a total function of the spawn outcome
(it never throws).  Returns the reply text, the session state afterwards,
and whether `saveSession` was invoked.  On non-zero exit it returns
`"Error: " + (stderr || "Claude exited with code " + exitCode)`; on a spawn
failure it returns the fixed message `"Error: Could not run Claude CLI"`;
on success it persists any session id found in the output and returns the
trimmed output. -/
def callClaude (session : SessionState) (now : List Char)
    (outcome : SpawnOutcome) : List Char × SessionState × Bool :=
  match outcome with
  | .spawnError => ("Error: Could not run Claude CLI".toList, session, false)
  | .ok stdout stderr exitCode =>
    if exitCode ≠ 0 then
      (("Error: ".toList)
         ++ (if stderr = []
             then ("Claude exited with code ".toList) ++ (toString exitCode).toList
             else stderr),
       session, false)
    else
      match findSessionId stdout with
      | some sid => (trimList stdout, ⟨some sid, now⟩, true)
      | none => (trimList stdout, session, false)

/-- One session-state event of a conversation turn, for the interleaving
model of §5 of the spec.  `start t` is turn `t` entering `callClaude` and
reading the shared session pointer to build its `--resume` argument;
`finish t` is turn `t`'s invocation completing and persisting the session
id it reports.  Between the two lies the subprocess `await`, at which the
single-threaded runtime may run steps of the other turn: `relay.ts` has no
queue or mutex around `processMessage`, so every interleaving that respects
each turn's own order is admissible. -/
inductive TStep where
  | start (t : Bool)
  | finish (t : Bool)
deriving DecidableEq, Repr

/-- `tr` contains no `finish t` before the corresponding `start t`. -/
def startBeforeFinish (t : Bool) : List TStep → Bool
  | [] => true
  | .finish u :: rest => if u = t then false else startBeforeFinish t rest
  | .start u :: rest => if u = t then true else startBeforeFinish t rest

/-- An admissible two-turn trace: each of the four events occurs exactly
once and each turn starts before it finishes.  This is the full set of
interleavings the unsynchronised `processMessage` admits. -/
def validTrace (tr : List TStep) : Bool :=
  tr.count (.start false) = 1 && tr.count (.start true) = 1 &&
  tr.count (.finish false) = 1 && tr.count (.finish true) = 1 &&
  startBeforeFinish false tr && startBeforeFinish true tr

/-- The serialized traces: one turn runs to completion before the other
begins — what the spec's turn-serialization requirement demands of every
admissible trace. -/
def serializedTrace (tr : List TStep) : Bool :=
  tr = [.start false, .finish false, .start true, .finish true] ||
  tr = [.start true, .finish true, .start false, .finish false]

/-- State threaded through a trace: the persisted session pointer, and for
each turn the value of the pointer it read when it started (its `--resume`
session), `none` while the turn has not started. -/
structure RunState where
  persisted : Option (List Char)
  resumedFrom : Bool → Option (Option (List Char))

/-- Effect of one event: a start records the current pointer as the turn's
resume value; a finish overwrites the pointer with the session id the
turn's invocation reports (`rep t`), exactly as `callClaude` assigns
`session.sessionId` and calls `saveSession` on completion. -/
def stepRun (rep : Bool → List Char) (st : RunState) : TStep → RunState
  | .start t =>
    { st with resumedFrom := fun b => if b = t then some st.persisted else st.resumedFrom b }
  | .finish t => { st with persisted := some (rep t) }

/-- Run a trace from an initial persisted pointer. -/
def runTrace (rep : Bool → List Char) (init : Option (List Char))
    (tr : List TStep) : RunState :=
  tr.foldl (stepRun rep) ⟨init, fun _ => none⟩

/-- The turn whose invocation completes last in the trace. -/
def lastFinisher : List TStep → Option Bool
  | [] => none
  | .finish t :: rest => some ((lastFinisher rest).getD t)
  | .start _ :: rest => lastFinisher rest

/-! ## Supporting lemmas -/

theorem containsSub_nil_pat (l : List Char) : containsSub [] l = true := by
  cases l with
  | nil => rfl
  | cons c rest => simp [containsSub, List.isPrefixOf]

theorem containsSub_iff (pat l : List Char) : containsSub pat l = true ↔ pat <:+: l := by
  induction l with
  | nil =>
    simp only [containsSub, List.infix_nil, List.isEmpty_iff]
  | cons c rest ih =>
    simp only [containsSub, Bool.or_eq_true, List.infix_cons_iff, ih,
      List.isPrefixOf_iff_prefix]

theorem containsSub_of_infix {pat m l : List Char} (h : m <:+: l)
    (hc : containsSub pat m = true) : containsSub pat l = true := by
  rw [containsSub_iff] at hc ⊢
  exact hc.trans h

theorem trimLeft_sfx (l : List Char) : trimLeft l <:+ l := by
  induction l with
  | nil => exact List.suffix_refl _
  | cons c rest ih =>
    by_cases h : isWs c
    · simpa [trimLeft, h] using ih.trans (List.suffix_cons c rest)
    · simp [trimLeft, h]

theorem trimLeft_idem (l : List Char) : trimLeft (trimLeft l) = trimLeft l := by
  induction l with
  | nil => rfl
  | cons c rest ih =>
    by_cases h : isWs c
    · simpa [trimLeft, h] using ih
    · simp [trimLeft, h]

theorem trimLeft_cons_of_not_ws {c : Char} (r : List Char) (h : isWs c = false) :
    trimLeft (c :: r) = c :: r := by
  simp [trimLeft, h]

theorem trimRight_pfx (l : List Char) : trimRight l <+: l := by
  have h : trimLeft l.reverse <:+ l.reverse := trimLeft_sfx l.reverse
  have h2 : (trimLeft l.reverse).reverse <+: l.reverse.reverse := by
    rw [ List.reverse_prefix]
    exact h
  simpa [trimRight] using h2

theorem trimRight_idem (l : List Char) : trimRight (trimRight l) = trimRight l := by
  simp [trimRight, List.reverse_reverse, trimLeft_idem]

theorem trimLeft_fix_of_pfx {u v : List Char} (hu : trimLeft u = u) (hp : v <+: u) :
    trimLeft v = v := by
  cases v with
  | nil => rfl
  | cons c r =>
    cases u with
    | nil => exact absurd (List.IsPrefix.length_le hp) (by simp)
    | cons d s =>
      obtain ⟨w, hw⟩ := hp
      have hcd : c = d := by
        have := congrArg (fun l => l.headD 'x') hw
        simpa using this
      subst hcd
      have : isWs c = false := by
        by_contra hws
        rw [Bool.not_eq_false] at hws
        have h1 : trimLeft (c :: s) = trimLeft s := by simp [trimLeft, hws]
        rw [h1] at hu
        have hlen : (trimLeft s).length = s.length + 1 := by rw [hu]; rfl
        have hle := List.IsSuffix.length_le (trimLeft_sfx s)
        omega
      exact trimLeft_cons_of_not_ws r this

theorem trim_idem (l : List Char) : trimList (trimList l) = trimList l := by
  unfold trimList
  have h1 : trimLeft (trimRight (trimLeft l)) = trimRight (trimLeft l) :=
    trimLeft_fix_of_pfx (trimLeft_idem l) (trimRight_pfx (trimLeft l))
  rw [h1, trimRight_idem]

theorem trim_infix_self (l : List Char) : trimList l <:+: l := by
  have h1 : trimRight (trimLeft l) <+: trimLeft l := trimRight_pfx _
  have h2 : trimLeft l <:+ l := trimLeft_sfx l
  exact (h1.isInfix).trans h2.isInfix

theorem removeFirst_first_at (pat b : List Char) (hne : pat ≠ []) :
    ∀ a : List Char, (∀ n, n < a.length → pat.isPrefixOf ((a ++ pat ++ b).drop n) = false) →
      removeFirst pat (a ++ pat ++ b) = a ++ b := by
  intro a
  induction a with
  | nil =>
    intro _
    show removeFirst pat (pat ++ b) = b
    cases pat with
    | nil => exact absurd rfl hne
    | cons q qs =>
      show removeFirst (q :: qs) (q :: (qs ++ b)) = b
      have hpre : (q :: qs).isPrefixOf (q :: (qs ++ b)) = true := by
        rw [ List.isPrefixOf_iff_prefix]
        exact List.prefix_append _ _
      simp only [removeFirst, hpre, if_true]
      exact List.drop_left' (by simp)
  | cons c a' ih =>
    intro hfirst
    have h0 : pat.isPrefixOf (c :: (a' ++ pat ++ b)) = false := hfirst 0 (Nat.succ_pos _)
    have hrec : removeFirst pat (a' ++ pat ++ b) = a' ++ b := by
      refine ih ?_
      intro n hn
      exact hfirst (n + 1) (Nat.succ_lt_succ hn)
    show removeFirst pat (c :: (a' ++ pat ++ b)) = c :: (a' ++ b)
    have h0' : ¬ (pat.isPrefixOf (c :: (a' ++ pat ++ b)) = true) := by
      simp only [h0]
      exact Bool.false_ne_true
    simp only [removeFirst]
    rw [if_neg h0', hrec]

theorem stripAll_single (p t : List Char) : stripAll [p] t = replaceFirst p t := rfl

theorem litPrefix_self (lit rest : List Char) : litPrefix lit (lit ++ rest) = some rest := by
  induction lit with
  | nil => rfl
  | cons c cs ih => simp [litPrefix, ih]

theorem litPrefix_refl (lit : List Char) : litPrefix lit lit = some [] := by
  have h := litPrefix_self lit []
  simpa using h

theorem litPrefix_null_quote (x : List Char) :
    litPrefix ("null".toList) ('"' :: x) = none := rfl

theorem takeWhile_append_stop (p : Char → Bool) (s : List Char) (q : Char) (r : List Char)
    (hs : ∀ c ∈ s, p c = true) (hq : p q = false) :
    (s ++ q :: r).takeWhile p = s := by
  induction s with
  | nil => simp [List.takeWhile_cons, hq]
  | cons c cs ih =>
    have hc : p c = true := hs c (by simp)
    simp only [List.cons_append, List.takeWhile_cons, hc, if_true]
    rw [ih (fun d hd => hs d (by simp [hd]))]

theorem parseQuoted_at (s : List Char) (hs : ∀ c ∈ s, (c != '"') = true) (r : List Char) :
    parseQuoted ('"' :: (s ++ '"' :: r)) = some (s, r) := by
  have ht : (s ++ '"' :: r).takeWhile (fun c => c != '"') = s :=
    takeWhile_append_stop _ s '"' r hs (by decide)
  simp only [parseQuoted, ht, List.drop_left]

theorem parseSidValue_quote (s : List Char) (hs : ∀ c ∈ s, (c != '"') = true)
    (r : List Char) :
    parseSidValue ('"' :: (s ++ '"' :: r)) = some (some s, r) := by
  simp only [parseSidValue, litPrefix_null_quote, parseQuoted_at s hs r, Option.map]

theorem parseSidValue_null (r : List Char) :
    parseSidValue ("null".toList ++ r) = some (none, r) := by
  simp only [parseSidValue, litPrefix_self]

theorem parseSession_print_some (sid la : List Char)
    (hsid : ∀ c ∈ sid, (c != '"') = true) (hla : ∀ c ∈ la, (c != '"') = true) :
    parseSession (printSession ⟨some sid, la⟩) = some ⟨some sid, la⟩ := by
  simp only [printSession, parseSession, quoteStr, List.cons_append, List.nil_append,
    List.append_assoc, litPrefix_self, parseSidValue_quote sid hsid, parseQuoted_at la hla,
    litPrefix_refl]

theorem parseSession_print_none (la : List Char)
    (hla : ∀ c ∈ la, (c != '"') = true) :
    parseSession (printSession ⟨none, la⟩) = some ⟨none, la⟩ := by
  simp only [printSession, parseSession, quoteStr, List.cons_append, List.nil_append,
    List.append_assoc, litPrefix_self, parseSidValue_null, parseQuoted_at la hla,
    litPrefix_refl]

theorem filter_map_all {α : Type} (p : Call → Bool) (f : α → Call) (l : List α)
    (h : ∀ x, p (f x) = true) : (l.map f).filter p = l.map f := by
  induction l with
  | nil => rfl
  | cons a l ih => simp [List.filter_cons, h, ih]

theorem filter_map_none {α : Type} (p : Call → Bool) (f : α → Call) (l : List α)
    (h : ∀ x, p (f x) = false) : (l.map f).filter p = [] := by
  induction l with
  | nil => rfl
  | cons a l ih => simp [List.filter_cons, h, ih]

theorem mgc_filter_isCreate (o : Oracle) (s : List Char) :
    (markGoalComplete o s).filter isCreate = [] := by
  rcases h : o s with _ | (_ | ⟨it, rest⟩)
  · simp [markGoalComplete, h, isCreate, List.filter_cons]
  · simp [markGoalComplete, h, isCreate, List.filter_cons]
  · rcases hid : it.id with _ | i
    · simp [markGoalComplete, h, hid, isCreate, List.filter_cons]
    · by_cases hi : i = [] <;>
        simp [markGoalComplete, h, hid, hi, isCreate, List.filter_cons]

theorem mgc_filter_isQueryText (o : Oracle) (s : List Char) :
    (markGoalComplete o s).filter isQueryText = [Call.queryText s 5] := by
  rcases h : o s with _ | (_ | ⟨it, rest⟩)
  · simp [markGoalComplete, h, isQueryText, List.filter_cons]
  · simp [markGoalComplete, h, isQueryText, List.filter_cons]
  · rcases hid : it.id with _ | i
    · simp [markGoalComplete, h, hid, isQueryText, List.filter_cons]
    · by_cases hi : i = [] <;>
        simp [markGoalComplete, h, hid, hi, isQueryText, List.filter_cons]

theorem mem_mgc_not_create {c : Call} {o : Oracle} {s : List Char}
    (hc : c ∈ markGoalComplete o s) : isCreate c = false := by
  have h := mgc_filter_isCreate o s
  by_contra hb
  rw [Bool.not_eq_false] at hb
  have : c ∈ (markGoalComplete o s).filter isCreate := List.mem_filter.mpr ⟨hc, hb⟩
  rw [h] at this
  exact absurd this (List.not_mem_nil c)

theorem query_mem_mgc (o : Oracle) (s : List Char) :
    Call.queryText s 5 ∈ markGoalComplete o s := by
  unfold markGoalComplete
  exact List.mem_cons_self _ _

theorem foldr_mgc_filter_isCreate (o : Oracle) (l : List TMatch) :
    ((l.foldr (fun m acc => markGoalComplete o (trimList m.g1) ++ acc) []).filter isCreate)
      = [] := by
  induction l with
  | nil => rfl
  | cons m l ih =>
    simp only [List.foldr_cons, List.filter_append, ih, mgc_filter_isCreate, List.append_nil]

theorem foldr_mgc_filter_isQueryText (o : Oracle) (l : List TMatch) :
    ((l.foldr (fun m acc => markGoalComplete o (trimList m.g1) ++ acc) []).filter
        isQueryText).length = l.length := by
  induction l with
  | nil => rfl
  | cons m l ih =>
    simp only [List.foldr_cons, List.filter_append, List.length_append, ih,
      mgc_filter_isQueryText, List.length_cons, List.length_nil]
    omega

theorem mem_foldr_mgc_not_create {c : Call} {o : Oracle} {l : List TMatch}
    (hc : c ∈ l.foldr (fun m acc => markGoalComplete o (trimList m.g1) ++ acc) []) :
    isCreate c = false := by
  induction l with
  | nil => exact absurd hc (List.not_mem_nil c)
  | cons m l ih =>
    simp only [List.foldr_cons, List.mem_append] at hc
    rcases hc with hc | hc
    · exact mem_mgc_not_create hc
    · exact ih hc

theorem query_mem_foldr_mgc {m : TMatch} {l : List TMatch} (hm : m ∈ l) (o : Oracle) :
    Call.queryText (trimList m.g1) 5
      ∈ l.foldr (fun m' acc => markGoalComplete o (trimList m'.g1) ++ acc) [] := by
  induction l with
  | nil => exact absurd hm (List.not_mem_nil m)
  | cons m' l ih =>
    simp only [List.foldr_cons, List.mem_append]
    rcases List.mem_cons.mp hm with rfl | hm'
    · exact Or.inl (query_mem_mgc o (trimList m.g1))
    · exact Or.inr (ih hm')

theorem foldl_stepRun_persisted (rep : Bool → List Char) :
    ∀ (tr : List TStep) (st : RunState),
      (tr.foldl (stepRun rep) st).persisted
        = (match lastFinisher tr with
           | some t => some (rep t)
           | none => st.persisted) := by
  intro tr
  induction tr with
  | nil => intro st; rfl
  | cons s tr ih =>
    intro st
    cases s with
    | start t =>
      simp only [List.foldl_cons, lastFinisher]
      rw [ih]
      cases h : lastFinisher tr <;> simp [h, stepRun]
    | finish t =>
      simp only [List.foldl_cons, lastFinisher]
      rw [ih]
      cases h : lastFinisher tr <;> simp [h, stepRun]

/-! ## Claim theorems -/

/-- C1, counterexample: the orchestrator does not serialize turns.  The
interleaving `start 0, start 1, finish 0, finish 1` is admissible for the
unsynchronised `processMessage` (each turn's own order is respected, which
is all the code enforces), it is not serialized — turn 1 begins its agent
invocation before turn 0 has completed through reply — and both turns read
the same prior session pointer for their `--resume` argument, forking the
conversation thread. -/
theorem C1_counterexample :
    validTrace [TStep.start false, TStep.start true, TStep.finish false, TStep.finish true]
      = true
    ∧ serializedTrace
        [TStep.start false, TStep.start true, TStep.finish false, TStep.finish true] = false
    ∧ (runTrace (fun b => if b then "b1".toList else "a0".toList) (some ("s0".toList))
        [TStep.start false, TStep.start true, TStep.finish false, TStep.finish true]).resumedFrom
        true = some (some ("s0".toList))
    ∧ (runTrace (fun b => if b then "b1".toList else "a0".toList) (some ("s0".toList))
        [TStep.start false, TStep.start true, TStep.finish false, TStep.finish true]).resumedFrom
        false = some (some ("s0".toList)) := by
  refine ⟨by decide, by decide, rfl, rfl⟩

/-- C1 (amended): turns are not serialized — any interleaving respecting
each turn's own order is admissible, and a turn may begin its agent
invocation before the previous turn has replied (see the counterexample).
What does hold is the last-writer-wins property for the session pointer:
after both turns complete, the persisted session state is the one reported
by the later-completing of the two agent invocations, because each
invocation assigns and persists its reported session id as a single step at
completion. -/
theorem C1_last_completion_wins (rep : Bool → List Char) (init : Option (List Char))
    (tr : List TStep) (t : Bool) (_hv : validTrace tr = true)
    (hl : lastFinisher tr = some t) :
    (runTrace rep init tr).persisted = some (rep t) := by
  have h := foldl_stepRun_persisted rep tr ⟨init, fun _ => none⟩
  rw [runTrace, h, hl]

/-- Witness for `C1_last_completion_wins` at the non-serialized
interleaving: turn 1 finishes last, and its reported session id is the one
persisted. -/
theorem C1_witness :
    (runTrace (fun b => if b then "b1".toList else "a0".toList) none
        [TStep.start false, TStep.start true, TStep.finish false, TStep.finish true]).persisted
      = some ("b1".toList) :=
  C1_last_completion_wins (fun b => if b then "b1".toList else "a0".toList) none
    [TStep.start false, TStep.start true, TStep.finish false, TStep.finish true] true
    (by decide) (by decide)

/-- C2, counterexample: stripping a REMEMBER match can splice the
surrounding text into a fresh copy of a GOAL match, so the dispatcher
output can contain a matched bracketed substring.  In
`"[GOAL: y][GO[REMEMBER: x]AL: y]"` the regexes match `"[REMEMBER: x]"` and
`"[GOAL: y]"` (once each); removing `"[REMEMBER: x]"` turns the tail into a
second `"[GOAL: y]"`, the GOAL removal deletes the first copy, and the
returned text is exactly the matched substring `"[GOAL: y]"`. -/
theorem C2_counterexample :
    ("[GOAL: y]".toList ∈ matchedPats ("[GOAL: y][GO[REMEMBER: x]AL: y]".toList))
    ∧ containsSub ("[GOAL: y]".toList)
        (processMemoryIntents (fun _ => none) ("[GOAL: y][GO[REMEMBER: x]AL: y]".toList)).text
        = true := by decide

/-- C2 (amended): for every input text, exactly one corresponding gateway
call is issued per directive match — one create per REMEMBER match, one
create per GOAL match, one free-text query per DONE match.  The returned
text contains none of the matched bracketed substrings only under a
no-splice condition: when the three regexes produce exactly one match
overall, occurring at a position before which the matched text has no
occurrence and not occurring in the surrounding text, the returned text
contains no occurrence of it.  In general a removal may splice surrounding
text into a new occurrence of a matched substring (see the
counterexample). -/
theorem C2_calls_and_stripping (o : Oracle) (t : List Char) :
    (((processMemoryIntents o t).calls.filter isCreate).length
        = (scanRemember t).length + (scanGoal t).length
      ∧ ((processMemoryIntents o t).calls.filter isQueryText).length
        = (scanDone t).length)
    ∧ (∀ pat a b, matchedPats t = [pat] → t = a ++ pat ++ b →
        (∀ n, n < a.length → pat.isPrefixOf (t.drop n) = false) →
        containsSub pat (a ++ b) = false →
        containsSub pat (processMemoryIntents o t).text = false) := by
  constructor
  · constructor
    · show ((factCalls t ++ goalCalls t ++ doneCalls o t).filter isCreate).length = _
      simp only [List.filter_append, List.length_append, factCalls, goalCalls, doneCalls]
      rw [filter_map_all isCreate (fun m => saveMemory (trimList m.g1) ("fact".toList) none)
          (scanRemember t) (fun m => rfl),
        filter_map_all isCreate
          (fun m => saveMemory (trimList m.g1) ("goal".toList) (m.g2.map trimList))
          (scanGoal t) (fun m => rfl),
        foldr_mgc_filter_isCreate]
      simp
    · show ((factCalls t ++ goalCalls t ++ doneCalls o t).filter isQueryText).length = _
      simp only [List.filter_append, List.length_append, factCalls, goalCalls, doneCalls]
      rw [filter_map_none isQueryText (fun m => saveMemory (trimList m.g1) ("fact".toList) none)
          (scanRemember t) (fun m => rfl),
        filter_map_none isQueryText
          (fun m => saveMemory (trimList m.g1) ("goal".toList) (m.g2.map trimList))
          (scanGoal t) (fun m => rfl),
        foldr_mgc_filter_isQueryText]
      simp
  · intro pat a b hm ht hfirst hocc
    have hne : pat ≠ [] := by
      intro h
      rw [h, containsSub_nil_pat] at hocc
      exact Bool.noConfusion hocc
    have htext : (processMemoryIntents o t).text = trimList (replaceFirst pat t) := by
      show trimList (stripAll (matchedPats t) t) = _
      rw [hm, stripAll_single]
    have hrf : replaceFirst pat t = removeFirst pat t := by
      cases hp : pat with
      | nil => exact absurd hp hne
      | cons q qs => rfl
    have hrem : removeFirst pat t = a ++ b := by
      rw [ht]
      refine removeFirst_first_at pat b hne a ?_
      intro n hn
      have h' := hfirst n hn
      rw [ht] at h'
      exact h'
    rw [htext, hrf, hrem]
    by_contra hb
    rw [Bool.not_eq_false] at hb
    have hinf : containsSub pat (a ++ b) = true :=
      containsSub_of_infix (trim_infix_self (a ++ b)) hb
    rw [hocc] at hinf
    exact Bool.false_ne_true hinf

/-- Witness for `C2_calls_and_stripping` at a single-directive input. -/
theorem C2_witness :
    containsSub ("[REMEMBER: x]".toList)
      (processMemoryIntents (fun _ => none) ("hi [REMEMBER: x] bye".toList)).text = false :=
  (C2_calls_and_stripping (fun _ => none) ("hi [REMEMBER: x] bye".toList)).2
    ("[REMEMBER: x]".toList) ("hi ".toList) (" bye".toList)
    (by decide) (by decide) (by decide) (by decide)

/-- C3, counterexample: directive extraction is not idempotent.  On
`"[REM[REMEMBER: x]EMBER: y]"` the only match is the inner
`"[REMEMBER: x]"`; removing it splices the surrounding text into
`"[REMEMBER: y]"`, so a second run of the parser on the first run's output
strips that directive and issues another gateway call. -/
theorem C3_counterexample :
    (processMemoryIntents (fun _ => none) ("[REM[REMEMBER: x]EMBER: y]".toList)).text
      = "[REMEMBER: y]".toList
    ∧ (processMemoryIntents (fun _ => none)
        ((processMemoryIntents (fun _ => none)
          ("[REM[REMEMBER: x]EMBER: y]".toList)).text)).text = []
    ∧ (processMemoryIntents (fun _ => none)
        ((processMemoryIntents (fun _ => none)
          ("[REM[REMEMBER: x]EMBER: y]".toList)).text)).calls ≠ [] := by decide

/-- C3 (amended): a second run of the parser is a no-op — it changes
nothing and issues no gateway calls — whenever the first run's output
contains no directive match.  This covers every directive-free output, but
not every output: removals can splice surrounding text into a new
directive, so the cleaned output of `processMemoryIntents` may itself still
contain a recognizable directive and extraction is not idempotent in
general (see the counterexample). -/
theorem C3_second_run (o o' : Oracle) (t : List Char)
    (h : matchedPats ((processMemoryIntents o t).text) = []) :
    processMemoryIntents o' ((processMemoryIntents o t).text)
      = ⟨(processMemoryIntents o t).text, []⟩ := by
  have hu : (processMemoryIntents o t).text = trimList (stripAll (matchedPats t) t) := rfl
  have h3 : scanRemember ((processMemoryIntents o t).text) = []
      ∧ scanGoal ((processMemoryIntents o t).text) = []
      ∧ scanDone ((processMemoryIntents o t).text) = [] := by
    unfold matchedPats at h
    rcases List.append_eq_nil.mp h with ⟨h12, h3⟩
    rcases List.append_eq_nil.mp h12 with ⟨h1, h2⟩
    exact ⟨List.map_eq_nil_iff.mp h1, List.map_eq_nil_iff.mp h2, List.map_eq_nil_iff.mp h3⟩
  have htrim : trimList ((processMemoryIntents o t).text) = (processMemoryIntents o t).text := by
    rw [hu]
    exact trim_idem _
  have hfact : factCalls ((processMemoryIntents o t).text) = [] := by
    unfold factCalls
    rw [h3.1]
    rfl
  have hgoal : goalCalls ((processMemoryIntents o t).text) = [] := by
    unfold goalCalls
    rw [h3.2.1]
    rfl
  have hdone : doneCalls o' ((processMemoryIntents o t).text) = [] := by
    unfold doneCalls
    rw [h3.2.2]
    rfl
  show PmiResult.mk
      (trimList (stripAll (matchedPats ((processMemoryIntents o t).text))
        ((processMemoryIntents o t).text)))
      (factCalls ((processMemoryIntents o t).text)
        ++ goalCalls ((processMemoryIntents o t).text)
        ++ doneCalls o' ((processMemoryIntents o t).text))
      = ⟨(processMemoryIntents o t).text, []⟩
  rw [h, hfact, hgoal, hdone]
  show PmiResult.mk (trimList ((processMemoryIntents o t).text)) [] = _
  rw [htrim]

/-- Witness for `C3_second_run` on a directive-free first-run output. -/
theorem C3_witness :
    processMemoryIntents (fun _ => none)
        ((processMemoryIntents (fun _ => none) ("ok [REMEMBER: z]".toList)).text)
      = ⟨(processMemoryIntents (fun _ => none) ("ok [REMEMBER: z]".toList)).text, []⟩ :=
  C3_second_run (fun _ => none) (fun _ => none) ("ok [REMEMBER: z]".toList) (by decide)

/-- C4: every DONE directive issues `ledger_query(query = searchText,
limit = 5)`; on a malformed response (`none`) or an empty item list no
update is issued and the call list is just the query; when items come back
and the first has a truthy id, exactly that first item is updated to
`"done"`; the stripped turn text never depends on the gateway's answers, so
a DONE with no effect still strips the directive and lets the rest of the
turn proceed. -/
theorem C4_done_handling (o : Oracle) (s t : List Char) :
    ((o s = none ∨ o s = some []) → markGoalComplete o s = [Call.queryText s 5])
    ∧ (∀ it rest i, o s = some (it :: rest) → it.id = some i → i ≠ [] →
        markGoalComplete o s = [Call.queryText s 5, Call.update i ("done".toList)])
    ∧ (∀ m ∈ scanDone t, Call.queryText (trimList m.g1) 5 ∈ (processMemoryIntents o t).calls)
    ∧ (processMemoryIntents o t).text = (processMemoryIntents (fun _ => none) t).text := by
  refine ⟨?_, ?_, ?_, rfl⟩
  · rintro (h | h) <;> simp [markGoalComplete, h]
  · intro it rest i h hid hi
    simp [markGoalComplete, h, hid, hi]
  · intro m hm
    show _ ∈ factCalls t ++ goalCalls t ++ doneCalls o t
    exact List.mem_append_right _ (query_mem_foldr_mgc hm o)

/-- Witness for `C4_done_handling`: a populated response updates exactly the
first item; an empty response issues only the query. -/
theorem C4_witness :
    markGoalComplete (fun _ => some [⟨some ("i1".toList), "g".toList⟩]) ("buy milk".toList)
      = [Call.queryText ("buy milk".toList) 5,
         Call.update ("i1".toList) ("done".toList)]
    ∧ markGoalComplete (fun _ => some []) ("buy milk".toList)
      = [Call.queryText ("buy milk".toList) 5] :=
  ⟨(C4_done_handling (fun _ => some [⟨some ("i1".toList), "g".toList⟩])
      ("buy milk".toList) []).2.1 ⟨some ("i1".toList), "g".toList⟩ [] ("i1".toList)
      rfl rfl (by decide),
   (C4_done_handling (fun _ => some []) ("buy milk".toList) []).1 (Or.inr rfl)⟩

/-- C5: the create call issued for a REMEMBER match has nature `"know"`,
category `"memory"` and status `"inbox"`; the create call issued for a GOAL
match has nature `"action"`, with the subject carrying
`"DEADLINE: <date>"` when a (nonempty, trimmed) deadline is present and
empty otherwise. -/
theorem C5_create_shapes (o : Oracle) (t : List Char) :
    (∀ m ∈ scanRemember t,
        Call.create ((trimList m.g1).take 100) ("inbox".toList) ("medium".toList)
          ("know".toList) [] ("memory".toList) ∈ (processMemoryIntents o t).calls)
    ∧ (∀ m ∈ scanGoal t, ∀ d, m.g2 = some d → trimList d ≠ [] →
        Call.create ((trimList m.g1).take 100) ("inbox".toList) ("medium".toList)
          ("action".toList) (("DEADLINE: ".toList) ++ trimList d) ("memory".toList)
          ∈ (processMemoryIntents o t).calls)
    ∧ (∀ m ∈ scanGoal t, m.g2 = none →
        Call.create ((trimList m.g1).take 100) ("inbox".toList) ("medium".toList)
          ("action".toList) [] ("memory".toList) ∈ (processMemoryIntents o t).calls) := by
  refine ⟨?_, ?_, ?_⟩
  · intro m hm
    show _ ∈ factCalls t ++ goalCalls t ++ doneCalls o t
    refine List.mem_append_left _ (List.mem_append_left _ ?_)
    exact List.mem_map_of_mem _ hm
  · intro m hm d hd hdne
    show _ ∈ factCalls t ++ goalCalls t ++ doneCalls o t
    refine List.mem_append_left _ (List.mem_append_right _ ?_)
    have heq : saveMemory (trimList m.g1) ("goal".toList) (m.g2.map trimList)
        = Call.create ((trimList m.g1).take 100) ("inbox".toList) ("medium".toList)
            ("action".toList) (("DEADLINE: ".toList) ++ trimList d) ("memory".toList) := by
      rw [hd]
      show Call.create _ _ _ _
        (if trimList d = [] then [] else ("DEADLINE: ".toList) ++ trimList d) _ = _
      rw [if_neg hdne]
      rfl
    rw [← heq]
    exact List.mem_map_of_mem _ hm
  · intro m hm hd
    show _ ∈ factCalls t ++ goalCalls t ++ doneCalls o t
    refine List.mem_append_left _ (List.mem_append_right _ ?_)
    have heq : saveMemory (trimList m.g1) ("goal".toList) (m.g2.map trimList)
        = Call.create ((trimList m.g1).take 100) ("inbox".toList) ("medium".toList)
            ("action".toList) [] ("memory".toList) := by
      rw [hd]
      rfl
    rw [← heq]
    exact List.mem_map_of_mem _ hm

/-- Witness for `C5_create_shapes` on the spec's end-to-end scenario
`"Sure! [GOAL: call mom | DEADLINE: tomorrow]"` plus a fact and a bare
goal. -/
theorem C5_witness :
    Call.create ("f".toList) ("inbox".toList) ("medium".toList) ("know".toList) []
        ("memory".toList)
      ∈ (processMemoryIntents (fun _ => none)
          ("[REMEMBER: f]Sure! [GOAL: call mom | DEADLINE: tomorrow][GOAL: g]".toList)).calls
    ∧ Call.create ("call mom".toList) ("inbox".toList) ("medium".toList) ("action".toList)
        ("DEADLINE: tomorrow".toList) ("memory".toList)
      ∈ (processMemoryIntents (fun _ => none)
          ("[REMEMBER: f]Sure! [GOAL: call mom | DEADLINE: tomorrow][GOAL: g]".toList)).calls
    ∧ Call.create ("g".toList) ("inbox".toList) ("medium".toList) ("action".toList) []
        ("memory".toList)
      ∈ (processMemoryIntents (fun _ => none)
          ("[REMEMBER: f]Sure! [GOAL: call mom | DEADLINE: tomorrow][GOAL: g]".toList)).calls :=
  ⟨(C5_create_shapes (fun _ => none) _).1 ⟨"[REMEMBER: f]".toList, "f".toList⟩ (by decide),
   (C5_create_shapes (fun _ => none) _).2.1
     ⟨"[GOAL: call mom | DEADLINE: tomorrow]".toList, "call mom".toList,
       some ("tomorrow".toList)⟩ (by decide) ("tomorrow".toList) rfl (by decide),
   (C5_create_shapes (fun _ => none) _).2.2 ⟨"[GOAL: g]".toList, "g".toList, none⟩
     (by decide) rfl⟩

/-- C6: the agent invoker is a total function of the spawn outcome (it
never throws).  On a non-zero exit it replies with the synthesized error
message embedding the captured stderr, or the exit code when stderr is
empty; when the subprocess cannot be started it replies with the fixed
message `"Error: Could not run Claude CLI"`. -/
theorem C6_invoker_errors (session : SessionState) (now stdout stderr : List Char)
    (code : Int) :
    ((callClaude session now SpawnOutcome.spawnError).1
        = "Error: Could not run Claude CLI".toList)
    ∧ (code ≠ 0 → stderr ≠ [] →
        (callClaude session now (SpawnOutcome.ok stdout stderr code)).1
          = ("Error: ".toList) ++ stderr)
    ∧ (code ≠ 0 → stderr = [] →
        (callClaude session now (SpawnOutcome.ok stdout stderr code)).1
          = ("Error: ".toList)
              ++ (("Claude exited with code ".toList) ++ (toString code).toList)) := by
  refine ⟨rfl, ?_, ?_⟩
  · intro hc hs
    simp [callClaude, hc, hs]
  · intro hc hs
    simp [callClaude, hc, hs]

/-- Witness for `C6_invoker_errors` at exit code 7. -/
theorem C6_witness :
    (callClaude ⟨none, []⟩ ("now".toList)
        (SpawnOutcome.ok ("out".toList) ("boom".toList) 7)).1
      = ("Error: ".toList) ++ ("boom".toList)
    ∧ (callClaude ⟨none, []⟩ ("now".toList) (SpawnOutcome.ok ("out".toList) [] 7)).1
      = ("Error: ".toList) ++ (("Claude exited with code ".toList) ++ (toString (7 : Int)).toList) :=
  ⟨((C6_invoker_errors ⟨none, []⟩ ("now".toList) ("out".toList) ("boom".toList) 7).2.1
      (by decide) (by decide)),
   ((C6_invoker_errors ⟨none, []⟩ ("now".toList) ("out".toList) [] 7).2.2
      (by decide) rfl)⟩

/-- C7: `loadSession` returns the fresh empty state (`sessionId = none`)
when the file is missing or unreadable, and when its content does not
parse (corruption); it is a total function, so it never throws.  When the
file holds a state `saveSession` wrote (whose strings contain no quote
character, as the relay's session ids and timestamps do), it returns
exactly that state. -/
theorem C7_load_session (now content sid la : List Char) :
    (loadSession none now = ⟨none, now⟩)
    ∧ (parseSession content = none → loadSession (some content) now = ⟨none, now⟩)
    ∧ ((∀ c ∈ sid, (c != '"') = true) → (∀ c ∈ la, (c != '"') = true) →
        loadSession (some (saveSession ⟨some sid, la⟩)) now = ⟨some sid, la⟩
        ∧ loadSession (some (saveSession ⟨none, la⟩)) now = ⟨none, la⟩) := by
  refine ⟨rfl, ?_, ?_⟩
  · intro h
    simp [loadSession, h]
  · intro hs hl
    constructor
    · show (match parseSession (printSession ⟨some sid, la⟩) with
        | some st => st
        | none => ⟨none, now⟩) = _
      rw [parseSession_print_some sid la hs hl]
    · show (match parseSession (printSession ⟨none, la⟩) with
        | some st => st
        | none => ⟨none, now⟩) = _
      rw [parseSession_print_none la hl]

/-- Witness for `C7_load_session`: a corrupt file and a saved state. -/
theorem C7_witness :
    loadSession (some ("not json\x7b".toList)) ("T0".toList) = ⟨none, "T0".toList⟩
    ∧ loadSession (some (saveSession ⟨some ("ab-12f".toList), "2025-01-01".toList⟩))
        ("T0".toList) = ⟨some ("ab-12f".toList), "2025-01-01".toList⟩ :=
  ⟨(C7_load_session ("T0".toList) ("not json\x7b".toList) [] []).2.1 (by decide),
   ((C7_load_session ("T0".toList) [] ("ab-12f".toList) ("2025-01-01".toList)).2.2
      (by decide) (by decide)).1⟩

/-- C8: a lock record naming a live process makes `acquireLock` fail and
leaves the lock untouched; an absent lock, or one naming a dead process, is
(re)claimed by writing the caller's own pid, and the call succeeds. -/
theorem C8_lock_acquire (alive : Int → Bool) (selfPid : Nat) (content : List Char)
    (pid : Int) :
    (acquireLock none alive selfPid = ⟨true, some (toString selfPid).toList⟩)
    ∧ (parseIntPrefix content = some pid → alive pid = true →
        acquireLock (some content) alive selfPid = ⟨false, some content⟩)
    ∧ (parseIntPrefix content = some pid → alive pid = false →
        acquireLock (some content) alive selfPid
          = ⟨true, some (toString selfPid).toList⟩) := by
  have hne : parseIntPrefix content = some pid → content ≠ [] := by
    intro h hc
    rw [hc] at h
    have hz : parseIntPrefix [] = none := rfl
    rw [hz] at h
    exact Option.noConfusion h
  refine ⟨rfl, ?_, ?_⟩
  · intro h ha
    simp [acquireLock, hne h, h, ha]
  · intro h ha
    simp [acquireLock, hne h, h, ha]

/-- Witness for `C8_lock_acquire`: pid 321, live and dead owners. -/
theorem C8_witness :
    acquireLock (some ("321".toList)) (fun _ => true) 77
      = ⟨false, some ("321".toList)⟩
    ∧ acquireLock (some ("321".toList)) (fun _ => false) 77
      = ⟨true, some (toString 77).toList⟩ :=
  ⟨(C8_lock_acquire (fun _ => true) 77 ("321".toList) 321).2.1 (by decide) rfl,
   (C8_lock_acquire (fun _ => false) 77 ("321".toList) 321).2.2 (by decide) rfl⟩

/-- C9, counterexample: `saveSession` is a single plain truncate-then-write
of the serialized state, so a crash mid-write can persist a proper prefix
of the new content — an outcome that is neither the complete old content
nor the complete new content, contradicting the claimed atomicity. -/
theorem C9_counterexample :
    sessionCrashOutcomes [] ⟨none, []⟩ ((saveSession ⟨none, []⟩).take 3)
    ∧ ¬ atomicOutcomes [] (saveSession ⟨none, []⟩) ((saveSession ⟨none, []⟩).take 3) := by
  constructor
  · exact Or.inr ⟨3, by decide, rfl⟩
  · rintro (h | h)
    · exact absurd h (by decide)
    · exact absurd h (by decide)

/-- C9 (amended): `saveSession` overwrites the persisted record with a
single non-atomic write.  The complete new content and the untouched old
content are both possible post-crash states, but so is a proper partial
prefix of the new content: the write is not atomic, and a crash mid-write
can leave a partial file (write-then-rename is not used). -/
theorem C9_save_not_atomic (old : List Char) (st : SessionState) :
    sessionCrashOutcomes old st (saveSession st)
    ∧ sessionCrashOutcomes old st old
    ∧ (old = [] →
        ∃ r, sessionCrashOutcomes old st r ∧ ¬ atomicOutcomes old (saveSession st) r) := by
  refine ⟨Or.inr ⟨(saveSession st).length, le_refl _, (List.take_length _).symm⟩,
    Or.inl rfl, ?_⟩
  intro hold
  subst hold
  obtain ⟨r, hr⟩ : ∃ r, saveSession st = '{' :: '\n' :: r := ⟨_, rfl⟩
  refine ⟨(saveSession st).take 1, Or.inr ⟨1, ?_, rfl⟩, ?_⟩
  · rw [hr]
    simp
  · rintro (h | h)
    · rw [hr] at h
      simp at h
    · rw [hr] at h
      simp at h

/-- Witness for `C9_save_not_atomic`: a partial-prefix crash outcome exists
for a concrete state. -/
theorem C9_witness :
    ∃ r, sessionCrashOutcomes [] ⟨some ("ab".toList), "t".toList⟩ r
      ∧ ¬ atomicOutcomes [] (saveSession ⟨some ("ab".toList), "t".toList⟩) r :=
  (C9_save_not_atomic [] ⟨some ("ab".toList), "t".toList⟩).2.2 rfl

/-- C10: every create call the dispatcher issues — for goals as well as
facts — has status `"inbox"` and priority `"medium"`, and its title is the
directive's trimmed text truncated to its first 100 characters; since the
pending-goals context query filters on status `"todo"` (the first query of
`getMemoryContext`), no dispatched goal is ever created with the status
that query selects. -/
theorem C10_dispatcher_creates (o : Oracle) (t : List Char) (c : Call)
    (hc : c ∈ (processMemoryIntents o t).calls)
    (title status priority nature subject category : List Char)
    (he : c = Call.create title status priority nature subject category) :
    status = "inbox".toList ∧ priority = "medium".toList
    ∧ (getMemoryContextCalls.head? = some (Call.queryStatus ("todo".toList) 10)
        ∧ status ≠ "todo".toList)
    ∧ ((∃ m ∈ scanRemember t, title = (trimList m.g1).take 100)
        ∨ (∃ m ∈ scanGoal t, title = (trimList m.g1).take 100)) := by
  subst he
  have hc' : Call.create title status priority nature subject category
      ∈ factCalls t ++ goalCalls t ++ doneCalls o t := hc
  rcases List.mem_append.mp hc' with hfg | hdone
  · rcases List.mem_append.mp hfg with hf | hg
    · rcases List.mem_map.mp hf with ⟨m, hm, hmeq⟩
      have hst : ("inbox".toList) = status := congrArg Call.statusOf hmeq
      have hpr : ("medium".toList) = priority := congrArg Call.priorityOf hmeq
      have hti : ((trimList m.g1).take 100) = title := congrArg Call.titleOf hmeq
      refine ⟨hst.symm, hpr.symm, ⟨rfl, ?_⟩, Or.inl ⟨m, hm, hti.symm⟩⟩
      rw [← hst]
      decide
    · rcases List.mem_map.mp hg with ⟨m, hm, hmeq⟩
      have hst : ("inbox".toList) = status := congrArg Call.statusOf hmeq
      have hpr : ("medium".toList) = priority := congrArg Call.priorityOf hmeq
      have hti : ((trimList m.g1).take 100) = title := congrArg Call.titleOf hmeq
      refine ⟨hst.symm, hpr.symm, ⟨rfl, ?_⟩, Or.inr ⟨m, hm, hti.symm⟩⟩
      rw [← hst]
      decide
  · have := mem_foldr_mgc_not_create hdone
    exact absurd this (by simp [isCreate])

/-- Witness for `C10_dispatcher_creates` on a dispatched goal. -/
theorem C10_witness :
    ("inbox".toList = "inbox".toList ∧ "medium".toList = "medium".toList
      ∧ (getMemoryContextCalls.head? = some (Call.queryStatus ("todo".toList) 10)
          ∧ "inbox".toList ≠ "todo".toList)
      ∧ ((∃ m ∈ scanRemember ("[GOAL: g]".toList),
            "g".toList = (trimList m.g1).take 100)
          ∨ (∃ m ∈ scanGoal ("[GOAL: g]".toList),
              "g".toList = (trimList m.g1).take 100))) :=
  C10_dispatcher_creates (fun _ => none) ("[GOAL: g]".toList)
    (Call.create ("g".toList) ("inbox".toList) ("medium".toList) ("action".toList) []
      ("memory".toList))
    (by decide) ("g".toList) ("inbox".toList) ("medium".toList) ("action".toList) []
    ("memory".toList) rfl

end Relay
